import Mathlib

/-!
Verification of the VOD segmentation and part-numbering core of
TwitchVODToYouTubeScript (src/main.py) against its specification.

The script is shallowly embedded: CSV rows become `LedgerEntry` values, the
external collaborators (streamlink, ffprobe, ffmpeg, the YouTube client) are
oracles passed as parameters, machine floats are modelled as rationals, and the
observable behaviour of `main()` is a trace of `Event`s plus the final ledger
and segments-directory state.
-/

namespace TwitchVOD

/-- One row of processed_vods.csv as written by `save_processed_vod`
(main.py line 59): `[vod_id, game_name, part_number, timestamp]`.
The part number is stored as text and read back with `int(row[2])`,
so it is modelled as an integer. -/
structure LedgerEntry where
  vodId : String
  categoryName : String
  partNumber : Int
  timestamp : String
deriving DecidableEq

/-- One element of `latest_vods` as produced by `fetch_vod_details`
(main.py line 112): `(video["id"], video["url"], video["title"], created_at)`;
the creation date is unused by `main` and omitted. -/
structure Vod where
  id : String
  url : String
  title : String
deriving DecidableEq

/-- ASCII lowercasing, modelling Python `str.lower()` on the ASCII
category names the script compares (main.py lines 64 and 333). -/
def strLower (s : String) : String :=
  String.mk (s.data.map Char.toLower)

/-- `get_last_part_number_for_game` (main.py lines 61-66): scan the rows,
keep the running maximum of `int(row[2])` over rows whose `row[1].lower()`
equals `game_name.lower()`, starting from 0. -/
def get_last_part_number_for_game (game_name : String)
    (processed_vods : List LedgerEntry) : Int :=
  processed_vods.foldl
    (fun max_part_number row =>
      if strLower row.categoryName = strLower game_name then
        max max_part_number row.partNumber
      else
        max_part_number)
    0

/-- `save_processed_vod` (main.py lines 54-59): append one row
`[vod_id, game_name, part_number, timestamp]` to processed_vods.csv. -/
def save_processed_vod (csv : List LedgerEntry) (vod_id game_name : String)
    (part_number : Int) (timestamp : String) : List LedgerEntry :=
  csv ++ [⟨vod_id, game_name, part_number, timestamp⟩]

/-- Python `round()` on rationals: round half to even (banker's rounding),
as used by `round(total_duration / target_segment_duration)`
(main.py line 136). -/
def pythonRound (q : ℚ) : Int :=
  let f : Int := q.floor
  if q - (f : ℚ) < 1 / 2 then f
  else if 1 / 2 < q - (f : ℚ) then f + 1
  else if f % 2 = 0 then f else f + 1

/-- Split a character list at the leftmost occurrence of `sep`, returning the
part before it and the part after it, or `none` when `sep` does not occur. -/
def splitFirstAux (sep : List Char) : List Char → Option (List Char × List Char)
  | [] => if sep.isEmpty then some ([], []) else none
  | c :: cs =>
    if sep.isPrefixOf (c :: cs) then some ([], (c :: cs).drop sep.length)
    else
      match splitFirstAux sep cs with
      | some (pre, rest) => some (c :: pre, rest)
      | none => none

/-- Python `s.split(sep, 1)` for a non-empty `sep`: the first field, and, when
`sep` occurs in `s`, the remainder after its first occurrence (index `[1]` of
the Python list; `none` models the `IndexError` raised by `[1]` when `sep`
does not occur, in which case `split` returned the one-element list `[s]`).
The first component also equals `s.split(sep)[0]`. -/
def pySplitOnce (s sep : String) : String × Option String :=
  match splitFirstAux sep.data s.data with
  | none => (s, none)
  | some (pre, rest) => (String.mk pre, some (String.mk rest))

/-- `vod_title.split(" |")[0]` (main.py line 328): everything before the
first `" |"`, or the whole title when the delimiter is absent. -/
def extract_game_name (vod_title : String) : String :=
  (pySplitOnce vod_title " |").1

/-- The upload description built in both branches of `main`
(main.py lines 342 and 359, textually identical). -/
def vod_description (part_number : Int) (game_name : String) : String :=
  "Part " ++ toString part_number ++ " of Twitch VOD: " ++ game_name ++
    ". Broadcasted live on Twitch -- Watch live at https://www.twitch.tv/watcherneil. Uploaded automatically"

/-- The continuous-class title (main.py line 339):
`f"{game_name} | Part {part_number} | {vod_title.split(' |', 1)[1]}"`;
`none` models the `IndexError` when the title has no `" |"`. -/
def continuous_modified_title (game_name : String) (part_number : Int)
    (vod_title : String) : Option String :=
  match (pySplitOnce vod_title " |").2 with
  | some tail1 =>
    some (game_name ++ " | Part " ++ toString part_number ++ " | " ++ tail1)
  | none => none

/-- The segmented-class title (main.py line 356):
`f"{vod_title.split(' |', 1)[0]} | Part {part_number} | {vod_title.split(' |', 1)[1]}"`;
`none` models the `IndexError` when the title has no `" |"`. -/
def segmented_modified_title (part_number : Int) (vod_title : String) :
    Option String :=
  match (pySplitOnce vod_title " |").2 with
  | some tail1 =>
    some ((pySplitOnce vod_title " |").1 ++ " | Part " ++
      toString part_number ++ " | " ++ tail1)
  | none => none

/-- `target_segment_duration = 1800` (main.py line 135). -/
def target_segment_duration : ℚ := 1800

/-- `num_segments = round(total_duration / target_segment_duration)`
(main.py line 136). -/
def num_segments (total_duration : ℚ) : Int :=
  pythonRound (total_duration / target_segment_duration)

/-- The planning data of `split_vod`: the effective segment count used as the
divisor and the per-segment duration handed to ffmpeg. -/
structure SegmentationPlan where
  segmentCount : Int
  segmentDurationSeconds : ℚ
deriving DecidableEq

/-- The planning step of `split_vod` (main.py lines 132-139):
`segment_duration = total_duration / max(1, num_segments)`.  The effective
segment count — the number of pieces of that duration the total covers, and
the divisor actually used — is `max(1, num_segments)`. -/
def split_vod_plan (total_duration : ℚ) : SegmentationPlan :=
  { segmentCount := max 1 (num_segments total_duration)
  , segmentDurationSeconds :=
      total_duration / ((max 1 (num_segments total_duration) : Int) : ℚ) }

/-- `SEGMENTS_DIR` (main.py line 40). -/
def SEGMENTS_DIR : String := "./segments"

/-- `DOWNLOAD_DIR` (main.py line 39). -/
def DOWNLOAD_DIR : String := "./vods"

/-- Zero padding of `%03d` in the ffmpeg output template (main.py line 141). -/
def pad3 (n : Nat) : String :=
  let s := toString n
  if s.length < 3 then String.mk (List.replicate (3 - s.length) '0') ++ s else s

/-- The file name ffmpeg gives the `i`-th piece: `segment_%03d.mp4`. -/
def segment_file_name (i : Nat) : String :=
  "segment_" ++ pad3 i ++ ".mp4"

/-- The collection filter of `split_vod` (main.py line 148):
`file.startswith("segment_") and file.endswith(".mp4")`. -/
def is_segment_file (f : String) : Bool :=
  "segment_".data.isPrefixOf f.data && ".mp4".data.isSuffixOf f.data

/-- The effect of the ffmpeg invocation (main.py lines 143-146) on the
segments directory listing: the `m` actual output files `segment_000.mp4`,
`segment_001.mp4`, … overwrite files that already carry those names and are
created otherwise.  Files left in the directory by earlier recordings are not
removed.  `os.listdir` order is unspecified; the listing is modelled as a
stable sequence with genuinely new names appended. -/
def write_ffmpeg_outputs (dir : List String) (m : Nat) : List String :=
  dir ++ ((List.range m).map segment_file_name).filter (fun f => decide (f ∉ dir))

/-- `split_vod` (main.py lines 130-151) after the ffmpeg call, which actually
produced `m` output files: collect every file of the segments directory whose
name starts with `"segment_"` and ends with `".mp4"`, in listing order, as
paths under `SEGMENTS_DIR`.  Returns the segments and the new listing. -/
def split_vod (dir : List String) (m : Nat) : List String × List String :=
  let listing := write_ffmpeg_outputs dir m
  ((listing.filter is_segment_file).map (fun f => SEGMENTS_DIR ++ "/" ++ f),
   listing)

/-- Observable actions of one run of `main`. -/
inductive Event where
  | download (vodId : String)
  | upload (vodId file title description : String) (partNumber : Int)
  | ledgerAppend (entry : LedgerEntry)
  | skip (vodId : String)
  | liveSkip
  | errorLog (vodId title : String)
  | clearFolders
deriving DecidableEq

/-- The `for i, segment in enumerate(segments)` loop of the segmented branch
(main.py lines 352-363).  Each iteration computes
`part_number = last_part_number + i + 1`, builds the spliced title (an
`IndexError` when the title has no `" |"` aborts the recording), uploads, and
continues.  A failed upload makes `upload_to_youtube` return `None`, after
which `response["id"]` raises, aborting the recording: the loop stops with no
further events. -/
def upload_segments_loop (uploadOk : String → Bool)
    (vodId vod_title game_name : String) (last_part_number : Int) :
    List (Nat × String) → List Event × Bool
  | [] => ([], true)
  | (i, segment) :: rest =>
    let part_number : Int := last_part_number + (i : Int) + 1
    match segmented_modified_title part_number vod_title with
    | none => ([], false)
    | some t =>
      if uploadOk segment then
        let r := upload_segments_loop uploadOk vodId vod_title game_name
          last_part_number rest
        (Event.upload vodId segment t (vod_description part_number game_name)
            part_number :: r.1,
         r.2)
      else ([], false)

/-- The body of the per-VOD `try` block of `main` (main.py lines 322-368).
`processed_vods` is the in-memory list the part-number lookup reads (the list
`main` loaded at run start); `csv` is the current content of
processed_vods.csv; `dir` is the segments directory listing; `pieces` tells
how many output files the ffmpeg call actually produces for a given local
path; `uploadOk` tells whether an upload succeeds.  Returns the events, the
new csv content, the new listing, and whether the block completed without an
exception. -/
def process_vod (uploadOk : String → Bool) (pieces : String → Nat)
    (processed_vods csv : List LedgerEntry) (dir : List String)
    (v : Vod) (now : String) :
    List Event × List LedgerEntry × List String × Bool :=
  let vod_path := DOWNLOAD_DIR ++ "/" ++ v.id ++ ".mp4"
  let game_name := extract_game_name v.title
  let last_part_number := get_last_part_number_for_game game_name processed_vods
  if strLower game_name = "just chatting" ∨ strLower game_name = "cooking" then
    let part_number := last_part_number + 1
    match continuous_modified_title game_name part_number v.title with
    | none => ([Event.download v.id], csv, dir, false)
    | some t =>
      if uploadOk vod_path then
        ([Event.download v.id,
          Event.upload v.id vod_path t (vod_description part_number game_name)
            part_number,
          Event.ledgerAppend ⟨v.id, game_name, part_number, now⟩],
         save_processed_vod csv v.id game_name part_number now, dir, true)
      else ([Event.download v.id], csv, dir, false)
  else
    let sp := split_vod dir (pieces vod_path)
    let r := upload_segments_loop uploadOk v.id v.title game_name
      last_part_number sp.1.enum
    if r.2 then
      (Event.download v.id :: r.1 ++
         [Event.ledgerAppend
            ⟨v.id, game_name, last_part_number + (sp.1.length : Int), now⟩],
       save_processed_vod csv v.id game_name
         (last_part_number + (sp.1.length : Int)) now,
       sp.2, true)
    else (Event.download v.id :: r.1, csv, sp.2, false)

/-- The `for index, ... in enumerate(latest_vods)` loop of `main`
(main.py lines 311-372).  The flag is true exactly for index 0 while the user
is live (`skip_first_vod`).  `processed_vods` is the list loaded at run start:
both the already-processed check (line 318) and, inside `process_vod`, the
part-number lookup (line 330) read it; it is never reloaded or extended in
memory during the run.  An exception inside the `try` block is caught, logged
with the VOD's id and title, and the loop continues. -/
def run_loop (uploadOk : String → Bool) (pieces : String → Nat)
    (processed_vods : List LedgerEntry) (now : String) :
    Bool → List Vod → List LedgerEntry → List String →
    List Event × List LedgerEntry × List String
  | _, [], csv, dir => ([], csv, dir)
  | skipFirst, v :: rest, csv, dir =>
    if skipFirst then
      let r := run_loop uploadOk pieces processed_vods now false rest csv dir
      (Event.liveSkip :: r.1, r.2)
    else if processed_vods.any (fun row => decide (v.id = row.vodId)) then
      let r := run_loop uploadOk pieces processed_vods now false rest csv dir
      (Event.skip v.id :: r.1, r.2)
    else
      let p := process_vod uploadOk pieces processed_vods csv dir v now
      let evs := if p.2.2.2 then p.1 else p.1 ++ [Event.errorLog v.id v.title]
      let r := run_loop uploadOk pieces processed_vods now false rest
        p.2.1 p.2.2.1
      (evs ++ r.1, r.2)

/-- One run of `main` (main.py lines 294-375): load the ledger once, walk the
VOD list (skipping the first while live), and clear the staging folders only
after the whole loop.  Returns the event trace, the final content of
processed_vods.csv, and the final segments listing. -/
def mainRun (uploadOk : String → Bool) (pieces : String → Nat)
    (is_live : Bool) (latest_vods : List Vod) (csv0 : List LedgerEntry)
    (dir0 : List String) (now : String) :
    List Event × List LedgerEntry × List String :=
  let r := run_loop uploadOk pieces csv0 now is_live latest_vods csv0 dir0
  (r.1 ++ [Event.clearFolders], r.2.1, [])

/-- Whether an event is the download of the VOD with the given id. -/
def Event.isDownloadFor (id : String) : Event → Bool
  | .download i => decide (i = id)
  | _ => false

/-- Whether an event is an upload belonging to the VOD with the given id. -/
def Event.isUploadFor (id : String) : Event → Bool
  | .upload i _ _ _ _ => decide (i = id)
  | _ => false

/-- The part numbers of the upload events of a trace, in trace order. -/
def uploadPartNumbers (evs : List Event) : List Int :=
  evs.filterMap fun ev =>
    match ev with
    | .upload _ _ _ _ p => some p
    | _ => none

/-- The ledger entries appended during a trace, in trace order. -/
def ledgerAppends (evs : List Event) : List LedgerEntry :=
  evs.filterMap fun ev =>
    match ev with
    | .ledgerAppend e => some e
    | _ => none

/-- The spec's reading of the Part-Number Allocator: the maximum `partNumber`
among the entries whose `categoryName` matches `c` case-insensitively, or 0
when no entry matches. -/
def lastPartNumberSpec (c : String) (E : List LedgerEntry) : Int :=
  match (E.filter fun e => decide (strLower e.categoryName = strLower c)).map
      (fun e => e.partNumber) with
  | [] => 0
  | p :: ps => ps.foldl max p

/-- Modelled from the spec: the end-of-run `canonicalize` step of the Ledger
("rewrites storage sorted by `categoryName` descending; pure reordering").
No such step exists in the revision of the script under src/ (the repository
holds several successive revisions of the evolving script and only one is
present); the sort is modelled from the spec's words as an insertion sort that
places each entry before the first entry whose category name is ≤ its own. -/
def insertByCategoryDesc (e : LedgerEntry) :
    List LedgerEntry → List LedgerEntry
  | [] => [e]
  | x :: xs =>
    if x.categoryName ≤ e.categoryName then e :: x :: xs
    else x :: insertByCategoryDesc e xs

/-- Modelled from the spec: sort the ledger by `categoryName` descending. -/
def canonicalize : List LedgerEntry → List LedgerEntry
  | [] => []
  | x :: xs => insertByCategoryDesc x (canonicalize xs)

/-! ### Helper lemmas -/

theorem foldl_max_le_init (l : List Int) (a : Int) : a ≤ l.foldl max a := by
  induction l generalizing a with
  | nil => exact le_refl a
  | cons x xs ih => exact le_trans (le_max_left a x) (ih (max a x))

theorem get_last_foldl_eq (c : String) (E : List LedgerEntry) (a : Int) :
    E.foldl
        (fun m row =>
          if strLower row.categoryName = strLower c then max m row.partNumber
          else m) a =
      ((E.filter fun e => decide (strLower e.categoryName = strLower c)).map
          (fun e => e.partNumber)).foldl max a := by
  induction E generalizing a with
  | nil => rfl
  | cons e E ih =>
    by_cases h : strLower e.categoryName = strLower c
    · simp [List.filter_cons, h, ih]
    · simp [List.filter_cons, h, ih]

theorem foldl_max_max (l : List Int) (a b : Int) :
    l.foldl max (max a b) = max a (l.foldl max b) := by
  induction l generalizing b with
  | nil => rfl
  | cons x xs ih =>
    simp only [List.foldl_cons]
    rw [max_assoc, ih]

theorem insertByCategoryDesc_perm (e : LedgerEntry) (l : List LedgerEntry) :
    List.Perm (insertByCategoryDesc e l) (e :: l) := by
  induction l with
  | nil => exact List.Perm.refl _
  | cons x xs ih =>
    by_cases h : x.categoryName ≤ e.categoryName
    · simp [insertByCategoryDesc, h]
    · simp only [insertByCategoryDesc, if_neg h]
      exact (ih.cons x).trans (List.Perm.swap e x xs)

theorem canonicalize_perm (E : List LedgerEntry) :
    List.Perm (canonicalize E) E := by
  induction E with
  | nil => exact List.Perm.refl _
  | cons x xs ih => exact (insertByCategoryDesc_perm x (canonicalize xs)).trans (ih.cons x)

theorem insertByCategoryDesc_pairwise (e : LedgerEntry) (l : List LedgerEntry)
    (h : List.Pairwise (fun a b => b.categoryName ≤ a.categoryName) l) :
    List.Pairwise (fun a b => b.categoryName ≤ a.categoryName)
      (insertByCategoryDesc e l) := by
  induction l with
  | nil => simp [insertByCategoryDesc]
  | cons x xs ih =>
    rcases List.pairwise_cons.1 h with ⟨hx, hxs⟩
    by_cases hle : x.categoryName ≤ e.categoryName
    · simp only [insertByCategoryDesc, if_pos hle]
      refine List.pairwise_cons.2 ⟨?_, h⟩
      intro y hy
      rcases List.mem_cons.1 hy with rfl | hy
      · exact hle
      · exact le_trans (hx y hy) hle
    · simp only [insertByCategoryDesc, if_neg hle]
      refine List.pairwise_cons.2 ⟨?_, ih hxs⟩
      intro y hy
      rcases List.mem_cons.1 ((insertByCategoryDesc_perm e xs).mem_iff.1 hy) with
        rfl | hy
      · exact le_of_not_le hle
      · exact hx y hy

theorem upload_segments_loop_shape (uploadOk : String → Bool)
    (vid vt g : String) (k : Int) (l : List (Nat × String)) :
    ∃ l' : List (Nat × String),
      (upload_segments_loop uploadOk vid vt g k l).1 =
        l'.map (fun p =>
          Event.upload vid p.2
            ((segmented_modified_title (k + (p.1 : Int) + 1) vt).getD "")
            (vod_description (k + (p.1 : Int) + 1) g) (k + (p.1 : Int) + 1)) := by
  induction l with
  | nil => exact ⟨[], rfl⟩
  | cons a rest ih =>
    obtain ⟨i, segment⟩ := a
    rcases hmt : segmented_modified_title (k + (i : Int) + 1) vt with _ | t
    · exact ⟨[], by simp [upload_segments_loop, hmt]⟩
    · by_cases hub : uploadOk segment = true
      · rcases ih with ⟨l', hl'⟩
        exact ⟨(i, segment) :: l', by simp [upload_segments_loop, hmt, hub, hl']⟩
      · exact ⟨[], by simp [upload_segments_loop, hmt, hub]⟩

theorem process_vod_events (uploadOk : String → Bool) (pieces : String → Nat)
    (P csv : List LedgerEntry) (dir : List String) (v : Vod) (now : String)
    (ev : Event) (hev : ev ∈ (process_vod uploadOk pieces P csv dir v now).1) :
    ev = Event.download v.id ∨ (∃ f t d p, ev = Event.upload v.id f t d p) ∨
      ∃ e, ev = Event.ledgerAppend e := by
  simp only [process_vod] at hev
  split at hev
  · -- continuous class
    split at hev
    · -- no delimiter: [download]
      rcases List.mem_singleton.1 hev with rfl
      exact Or.inl rfl
    · split at hev
      · -- upload succeeded
        rcases List.mem_cons.1 hev with rfl | hev
        · exact Or.inl rfl
        rcases List.mem_cons.1 hev with rfl | hev
        · exact Or.inr (Or.inl ⟨_, _, _, _, rfl⟩)
        rcases List.mem_singleton.1 hev with rfl
        · exact Or.inr (Or.inr ⟨_, rfl⟩)
      · rcases List.mem_singleton.1 hev with rfl
        exact Or.inl rfl
  · -- segmented class
    rcases upload_segments_loop_shape uploadOk v.id v.title
        (extract_game_name v.title)
        (get_last_part_number_for_game (extract_game_name v.title) P)
        (split_vod dir
          (pieces (DOWNLOAD_DIR ++ "/" ++ v.id ++ ".mp4"))).1.enum with ⟨l', hl'⟩
    split at hev
    · rcases List.mem_cons.1 hev with rfl | hev
      · exact Or.inl rfl
      rcases List.mem_append.1 hev with hev | hev
      · rw [hl'] at hev
        rcases List.mem_map.1 hev with ⟨p, _, rfl⟩
        exact Or.inr (Or.inl ⟨_, _, _, _, rfl⟩)
      · rcases List.mem_singleton.1 hev with rfl
        exact Or.inr (Or.inr ⟨_, rfl⟩)
    · rcases List.mem_cons.1 hev with rfl | hev
      · exact Or.inl rfl
      · rw [hl'] at hev
        rcases List.mem_map.1 hev with ⟨p, _, rfl⟩
        exact Or.inr (Or.inl ⟨_, _, _, _, rfl⟩)

theorem run_loop_no_events_for_ledger_id (uploadOk : String → Bool)
    (pieces : String → Nat) (P : List LedgerEntry) (now id : String)
    (hid : ∃ e ∈ P, id = e.vodId) :
    ∀ (skipFirst : Bool) (vods : List Vod) (csv : List LedgerEntry)
      (dir : List String),
      ∀ ev ∈ (run_loop uploadOk pieces P now skipFirst vods csv dir).1,
        Event.isDownloadFor id ev = false ∧ Event.isUploadFor id ev = false := by
  intro skipFirst vods
  induction vods generalizing skipFirst with
  | nil =>
    intro csv dir ev hev
    simp [run_loop] at hev
  | cons v rest ih =>
    intro csv dir ev hev
    simp only [run_loop] at hev
    split at hev
    · rcases List.mem_cons.1 hev with rfl | hev
      · exact ⟨rfl, rfl⟩
      · exact ih false csv dir ev hev
    · split at hev
      · rcases List.mem_cons.1 hev with rfl | hev
        · exact ⟨rfl, rfl⟩
        · exact ih false csv dir ev hev
      · rename_i hnoskip hany
        rcases List.mem_append.1 hev with hev | hev
        · have hvid : v.id ≠ id := by
            intro h
            rcases hid with ⟨e, he, heq⟩
            exact hany (List.any_eq_true.2 ⟨e, he, by simp [h, heq]⟩)
          have howner :
              ev ∈ (process_vod uploadOk pieces P csv dir v now).1 ∨
                ev = Event.errorLog v.id v.title := by
            by_cases hok :
                (process_vod uploadOk pieces P csv dir v now).2.2.2 = true
            · rw [if_pos hok] at hev
              exact Or.inl hev
            · rw [if_neg hok] at hev
              rcases List.mem_append.1 hev with hev | hev
              · exact Or.inl hev
              · exact Or.inr (List.mem_singleton.1 hev)
          rcases howner with hev | rfl
          · rcases process_vod_events uploadOk pieces P csv dir v now ev hev with
              rfl | ⟨f, t, d, p, rfl⟩ | ⟨e, rfl⟩
            · exact ⟨by simp [Event.isDownloadFor, hvid], rfl⟩
            · exact ⟨rfl, by simp [Event.isUploadFor, hvid]⟩
            · exact ⟨rfl, rfl⟩
          · exact ⟨rfl, rfl⟩
        · exact ih false _ _ ev hev

theorem run_loop_skips_processed (uploadOk : String → Bool)
    (pieces : String → Nat) (P : List LedgerEntry) (now id : String)
    (hid : ∃ e ∈ P, id = e.vodId) :
    ∀ (vods : List Vod) (csv : List LedgerEntry) (dir : List String),
      ∀ v ∈ vods, v.id = id →
        Event.skip id ∈ (run_loop uploadOk pieces P now false vods csv dir).1 := by
  intro vods
  induction vods with
  | nil =>
    intro csv dir v hv
    cases hv
  | cons w rest ih =>
    intro csv dir v hv hvid
    rcases List.mem_cons.1 hv with rfl | hv
    · have hany : P.any (fun row => decide (v.id = row.vodId)) = true := by
        rcases hid with ⟨e, he, heq⟩
        exact List.any_eq_true.2 ⟨e, he, by simp [hvid, heq]⟩
      simp only [run_loop, if_neg (by simp : ¬ false = true), if_pos hany]
      rw [hvid]
      exact List.mem_cons_self _ _
    · simp only [run_loop, if_neg (by simp : ¬ false = true)]
      split
      · exact List.mem_cons_of_mem _ (ih _ _ v hv hvid)
      · exact List.mem_append.2 (Or.inr (ih _ _ v hv hvid))

theorem filterMap_none {α β : Type} (l : List α) :
    l.filterMap (fun _ => (none : Option β)) = [] := by
  induction l with
  | nil => rfl
  | cons a l ih => simp [List.filterMap_cons, ih]

theorem upload_segments_loop_all_ok (uploadOk : String → Bool)
    (vid vt g : String) (k : Int) (tail1 : String)
    (hdelim : (pySplitOnce vt " |").2 = some tail1) :
    ∀ (segs : List String) (n : Nat), (∀ s ∈ segs, uploadOk s = true) →
      upload_segments_loop uploadOk vid vt g k (List.enumFrom n segs) =
        ((List.enumFrom n segs).map (fun p =>
          Event.upload vid p.2
            ((pySplitOnce vt " |").1 ++ " | Part " ++
              toString (k + (p.1 : Int) + 1) ++ " | " ++ tail1)
            (vod_description (k + (p.1 : Int) + 1) g) (k + (p.1 : Int) + 1)),
         true) := by
  intro segs
  induction segs with
  | nil => intro n _; rfl
  | cons s rest ih =>
    intro n h
    have hmt : segmented_modified_title (k + (n : Int) + 1) vt =
        some ((pySplitOnce vt " |").1 ++ " | Part " ++
          toString (k + (n : Int) + 1) ++ " | " ++ tail1) := by
      simp [segmented_modified_title, hdelim]
    have hs : uploadOk s = true := h s (List.mem_cons_self s rest)
    simp [List.enumFrom, upload_segments_loop, hmt, hs,
      ih (n + 1) (fun x hx => h x (List.mem_cons_of_mem s hx))]

theorem upload_segments_loop_first_fail (uploadOk : String → Bool)
    (vid vt g : String) (k : Int) (tail1 : String)
    (hdelim : (pySplitOnce vt " |").2 = some tail1) :
    ∀ (good : List String) (bad : String) (rest2 : List String) (n : Nat),
      (∀ s ∈ good, uploadOk s = true) → uploadOk bad = false →
      upload_segments_loop uploadOk vid vt g k
          (List.enumFrom n (good ++ bad :: rest2)) =
        ((List.enumFrom n good).map (fun p =>
          Event.upload vid p.2
            ((pySplitOnce vt " |").1 ++ " | Part " ++
              toString (k + (p.1 : Int) + 1) ++ " | " ++ tail1)
            (vod_description (k + (p.1 : Int) + 1) g) (k + (p.1 : Int) + 1)),
         false) := by
  intro good
  induction good with
  | nil =>
    intro bad rest2 n _ hb
    have hmt : segmented_modified_title (k + (n : Int) + 1) vt =
        some ((pySplitOnce vt " |").1 ++ " | Part " ++
          toString (k + (n : Int) + 1) ++ " | " ++ tail1) := by
      simp [segmented_modified_title, hdelim]
    simp [List.enumFrom, upload_segments_loop, hmt, hb]
  | cons s rest ih =>
    intro bad rest2 n hg hb
    have hmt : segmented_modified_title (k + (n : Int) + 1) vt =
        some ((pySplitOnce vt " |").1 ++ " | Part " ++
          toString (k + (n : Int) + 1) ++ " | " ++ tail1) := by
      simp [segmented_modified_title, hdelim]
    have hs : uploadOk s = true := hg s (List.mem_cons_self s rest)
    simp [List.enumFrom, upload_segments_loop, hmt, hs,
      ih bad rest2 (n + 1) (fun x hx => hg x (List.mem_cons_of_mem s hx)) hb]

theorem uploadPartNumbers_download_cons (vid : String) (l : List Event) :
    uploadPartNumbers (Event.download vid :: l) = uploadPartNumbers l := by
  simp [uploadPartNumbers, List.filterMap_cons]

theorem uploadPartNumbers_append (l1 l2 : List Event) :
    uploadPartNumbers (l1 ++ l2) =
      uploadPartNumbers l1 ++ uploadPartNumbers l2 := by
  simp [uploadPartNumbers, List.filterMap_append]

theorem uploadPartNumbers_ledger_singleton (e : LedgerEntry) :
    uploadPartNumbers [Event.ledgerAppend e] = [] := rfl

theorem ledgerAppends_download_cons (vid : String) (l : List Event) :
    ledgerAppends (Event.download vid :: l) = ledgerAppends l := by
  simp [ledgerAppends, List.filterMap_cons]

theorem ledgerAppends_append (l1 l2 : List Event) :
    ledgerAppends (l1 ++ l2) = ledgerAppends l1 ++ ledgerAppends l2 := by
  simp [ledgerAppends, List.filterMap_append]

theorem ledgerAppends_ledger_singleton (e : LedgerEntry) :
    ledgerAppends [Event.ledgerAppend e] = [e] := rfl

theorem uploadPartNumbers_upload_map (vid vt g : String) (k : Int)
    (t1 : String) (l : List (Nat × String)) :
    uploadPartNumbers (l.map (fun p =>
      Event.upload vid p.2
        ((pySplitOnce vt " |").1 ++ " | Part " ++
          toString (k + (p.1 : Int) + 1) ++ " | " ++ t1)
        (vod_description (k + (p.1 : Int) + 1) g) (k + (p.1 : Int) + 1))) =
      l.map (fun p => k + (p.1 : Int) + 1) := by
  induction l with
  | nil => rfl
  | cons a l ih =>
    simp only [List.map_cons, uploadPartNumbers, List.filterMap_cons] at ih ⊢
    rw [ih]

theorem ledgerAppends_upload_map (vid vt g : String) (k : Int)
    (t1 : String) (l : List (Nat × String)) :
    ledgerAppends (l.map (fun p =>
      Event.upload vid p.2
        ((pySplitOnce vt " |").1 ++ " | Part " ++
          toString (k + (p.1 : Int) + 1) ++ " | " ++ t1)
        (vod_description (k + (p.1 : Int) + 1) g) (k + (p.1 : Int) + 1))) =
      [] := by
  induction l with
  | nil => rfl
  | cons a l ih =>
    simp only [List.map_cons, ledgerAppends, List.filterMap_cons] at ih ⊢
    rw [ih]

theorem map_fst_enumFrom_zero {β : Type} (segs : List String) (h : Nat → β) :
    (List.enumFrom 0 segs).map (fun p => h p.1) =
      (List.range segs.length).map h := by
  calc (List.enumFrom 0 segs).map (fun p => h p.1)
      = ((List.enumFrom 0 segs).map Prod.fst).map h := by rw [List.map_map]; rfl
    _ = (List.range' 0 segs.length).map h := by rw [List.enumFrom_map_fst]
    _ = (List.range segs.length).map h := by rw [List.range_eq_range']

theorem process_vod_trace_shape (uploadOk : String → Bool)
    (pieces : String → Nat) (P csv : List LedgerEntry) (dir : List String)
    (v : Vod) (now : String) :
    ∃ tail, (process_vod uploadOk pieces P csv dir v now).1 =
        Event.download v.id :: tail ∧
      ∀ ev ∈ tail, (∃ f t d p, ev = Event.upload v.id f t d p) ∨
        ∃ e, ev = Event.ledgerAppend e := by
  rcases upload_segments_loop_shape uploadOk v.id v.title
      (extract_game_name v.title)
      (get_last_part_number_for_game (extract_game_name v.title) P)
      (split_vod dir
        (pieces (DOWNLOAD_DIR ++ "/" ++ v.id ++ ".mp4"))).1.enum with ⟨l', hl'⟩
  simp only [process_vod]
  split
  · split
    · exact ⟨[], rfl, fun ev hev => absurd hev (List.not_mem_nil ev)⟩
    · split
      · refine ⟨_, rfl, ?_⟩
        intro ev hev
        rcases List.mem_cons.1 hev with rfl | hev
        · exact Or.inl ⟨_, _, _, _, rfl⟩
        rcases List.mem_singleton.1 hev with rfl
        exact Or.inr ⟨_, rfl⟩
      · exact ⟨[], rfl, fun ev hev => absurd hev (List.not_mem_nil ev)⟩
  · split
    · refine ⟨_, List.cons_append _ _ _, ?_⟩
      intro ev hev
      rcases List.mem_append.1 hev with hev | hev
      · rw [hl'] at hev
        rcases List.mem_map.1 hev with ⟨p, _, rfl⟩
        exact Or.inl ⟨_, _, _, _, rfl⟩
      · rcases List.mem_singleton.1 hev with rfl
        exact Or.inr ⟨_, rfl⟩
    · refine ⟨_, rfl, ?_⟩
      intro ev hev
      rw [hl'] at hev
      rcases List.mem_map.1 hev with ⟨p, _, rfl⟩
      exact Or.inl ⟨_, _, _, _, rfl⟩

theorem process_vod_download_count (uploadOk : String → Bool)
    (pieces : String → Nat) (P csv : List LedgerEntry) (dir : List String)
    (v : Vod) (now id : String) :
    ((process_vod uploadOk pieces P csv dir v now).1.countP
        (Event.isDownloadFor id)) = if v.id = id then 1 else 0 := by
  rcases process_vod_trace_shape uploadOk pieces P csv dir v now with
    ⟨tail, htr, htail⟩
  rw [htr, List.countP_cons]
  have h0 : tail.countP (Event.isDownloadFor id) = 0 := by
    rw [List.countP_eq_zero]
    intro ev hev
    rcases htail ev hev with ⟨f, t, d, p, rfl⟩ | ⟨e, rfl⟩ <;> simp [Event.isDownloadFor]
  rw [h0]
  by_cases hvid : v.id = id
  · simp [Event.isDownloadFor, hvid]
  · simp [Event.isDownloadFor, hvid]

theorem run_loop_download_count_zero (uploadOk : String → Bool)
    (pieces : String → Nat) (P : List LedgerEntry) (now id : String) :
    ∀ (vods : List Vod), (∀ v ∈ vods, v.id ≠ id) →
      ∀ (skipFirst : Bool) (csv : List LedgerEntry) (dir : List String),
        ((run_loop uploadOk pieces P now skipFirst vods csv dir).1.countP
          (Event.isDownloadFor id)) = 0 := by
  intro vods
  induction vods with
  | nil => intro _ skipFirst csv dir; rfl
  | cons v rest ih =>
    intro h skipFirst csv dir
    have hv : v.id ≠ id := h v (List.mem_cons_self v rest)
    have hrest : ∀ w ∈ rest, w.id ≠ id := fun w hw =>
      h w (List.mem_cons_of_mem v hw)
    simp only [run_loop]
    split
    · simp [List.countP_cons, Event.isDownloadFor, ih hrest]
    · split
      · simp [List.countP_cons, Event.isDownloadFor, ih hrest]
      · rw [List.countP_append]
        have hchunk :
            ((if (process_vod uploadOk pieces P csv dir v now).2.2.2 then
                  (process_vod uploadOk pieces P csv dir v now).1
                else (process_vod uploadOk pieces P csv dir v now).1 ++
                  [Event.errorLog v.id v.title]).countP
              (Event.isDownloadFor id)) = 0 := by
          split
          · rw [process_vod_download_count, if_neg hv]
          · rw [List.countP_append, process_vod_download_count, if_neg hv]
            simp [List.countP_cons, Event.isDownloadFor]
        rw [hchunk, ih hrest]

theorem run_loop_download_count_le_one (uploadOk : String → Bool)
    (pieces : String → Nat) (P : List LedgerEntry) (now id : String) :
    ∀ (vods : List Vod), (vods.map Vod.id).Nodup →
      ∀ (skipFirst : Bool) (csv : List LedgerEntry) (dir : List String),
        ((run_loop uploadOk pieces P now skipFirst vods csv dir).1.countP
          (Event.isDownloadFor id)) ≤ 1 := by
  intro vods
  induction vods with
  | nil => intro _ skipFirst csv dir; simp [run_loop]
  | cons v rest ih =>
    intro hnd skipFirst csv dir
    rw [List.map_cons, List.nodup_cons] at hnd
    obtain ⟨hvnotin, hndrest⟩ := hnd
    simp only [run_loop]
    split
    · simpa [List.countP_cons, Event.isDownloadFor] using ih hndrest false csv dir
    · split
      · simpa [List.countP_cons, Event.isDownloadFor] using ih hndrest false csv dir
      · rw [List.countP_append]
        by_cases hvid : v.id = id
        · have hrest0 : ∀ w ∈ rest, w.id ≠ id := by
            intro w hw heq
            refine hvnotin ?_
            rw [hvid, ← heq]
            exact List.mem_map_of_mem Vod.id hw
          rw [run_loop_download_count_zero uploadOk pieces P now id rest hrest0]
          have hchunk :
              ((if (process_vod uploadOk pieces P csv dir v now).2.2.2 then
                    (process_vod uploadOk pieces P csv dir v now).1
                  else (process_vod uploadOk pieces P csv dir v now).1 ++
                    [Event.errorLog v.id v.title]).countP
                (Event.isDownloadFor id)) ≤ 1 := by
            split
            · rw [process_vod_download_count]
              split <;> omega
            · rw [List.countP_append, process_vod_download_count]
              simp only [List.countP_cons, List.countP_nil,
                Event.isDownloadFor, Bool.false_eq_true, if_false]
              split <;> omega
          omega
        · have hchunk :
              ((if (process_vod uploadOk pieces P csv dir v now).2.2.2 then
                    (process_vod uploadOk pieces P csv dir v now).1
                  else (process_vod uploadOk pieces P csv dir v now).1 ++
                    [Event.errorLog v.id v.title]).countP
                (Event.isDownloadFor id)) = 0 := by
            split
            · rw [process_vod_download_count, if_neg hvid]
            · rw [List.countP_append, process_vod_download_count, if_neg hvid]
              simp [List.countP_cons, Event.isDownloadFor]
          rw [hchunk]
          simpa using ih hndrest false _ _

theorem run_loop_reaches_all (uploadOk : String → Bool)
    (pieces : String → Nat) (P : List LedgerEntry) (now : String) :
    ∀ (vods : List Vod) (skipFirst : Bool) (csv : List LedgerEntry)
      (dir : List String), ∀ v ∈ vods,
      Event.download v.id ∈
          (run_loop uploadOk pieces P now skipFirst vods csv dir).1 ∨
        Event.skip v.id ∈
          (run_loop uploadOk pieces P now skipFirst vods csv dir).1 ∨
        Event.liveSkip ∈
          (run_loop uploadOk pieces P now skipFirst vods csv dir).1 := by
  intro vods
  induction vods with
  | nil => intro skipFirst csv dir v hv; cases hv
  | cons w rest ih =>
    intro skipFirst csv dir v hv
    simp only [run_loop]
    split
    · rcases List.mem_cons.1 hv with rfl | hv
      · exact Or.inr (Or.inr (List.mem_cons_self _ _))
      · rcases ih false csv dir v hv with h | h | h
        · exact Or.inl (List.mem_cons_of_mem _ h)
        · exact Or.inr (Or.inl (List.mem_cons_of_mem _ h))
        · exact Or.inr (Or.inr (List.mem_cons_of_mem _ h))
    · split
      · rcases List.mem_cons.1 hv with rfl | hv
        · exact Or.inr (Or.inl (List.mem_cons_self _ _))
        · rcases ih false csv dir v hv with h | h | h
          · exact Or.inl (List.mem_cons_of_mem _ h)
          · exact Or.inr (Or.inl (List.mem_cons_of_mem _ h))
          · exact Or.inr (Or.inr (List.mem_cons_of_mem _ h))
      · rcases List.mem_cons.1 hv with rfl | hv
        · rcases process_vod_trace_shape uploadOk pieces P csv dir v now with
            ⟨tail, htr, _⟩
          left
          apply List.mem_append_left
          split
          · rw [htr]; exact List.mem_cons_self _ _
          · exact List.mem_append_left _ (htr ▸ List.mem_cons_self _ _)
        · rcases ih false _ _ v hv with h | h | h
          · exact Or.inl (List.mem_append_right _ h)
          · exact Or.inr (Or.inl (List.mem_append_right _ h))
          · exact Or.inr (Or.inr (List.mem_append_right _ h))

theorem run_loop_errorLog_origin (uploadOk : String → Bool)
    (pieces : String → Nat) (P : List LedgerEntry) (now : String) :
    ∀ (vods : List Vod) (skipFirst : Bool) (csv : List LedgerEntry)
      (dir : List String) (i t : String),
      Event.errorLog i t ∈
          (run_loop uploadOk pieces P now skipFirst vods csv dir).1 →
        ∃ v ∈ vods, v.id = i ∧ v.title = t := by
  intro vods
  induction vods with
  | nil =>
    intro skipFirst csv dir i t hmem
    simp [run_loop] at hmem
  | cons w rest ih =>
    intro skipFirst csv dir i t hmem
    simp only [run_loop] at hmem
    have hlift : ∀ {csv' : List LedgerEntry} {dir' : List String},
        Event.errorLog i t ∈
            (run_loop uploadOk pieces P now false rest csv' dir').1 →
          ∃ v ∈ w :: rest, v.id = i ∧ v.title = t := by
      intro csv' dir' h
      rcases ih false csv' dir' i t h with ⟨v, hv, hvit⟩
      exact ⟨v, List.mem_cons_of_mem w hv, hvit⟩
    have hnotproc : ∀ ev ∈ (process_vod uploadOk pieces P csv dir w now).1,
        Event.errorLog i t ≠ ev := by
      intro ev hev heq
      rcases process_vod_trace_shape uploadOk pieces P csv dir w now with
        ⟨tail, htr, htail⟩
      rw [htr] at hev
      rcases List.mem_cons.1 hev with rfl | hev
      · exact Event.noConfusion heq
      · rcases htail ev hev with ⟨f, t', d, p, rfl⟩ | ⟨e, rfl⟩
        · exact Event.noConfusion heq
        · exact Event.noConfusion heq
    split at hmem
    · rcases List.mem_cons.1 hmem with heq | hmem
      · exact Event.noConfusion heq
      · exact hlift hmem
    · split at hmem
      · rcases List.mem_cons.1 hmem with heq | hmem
        · exact Event.noConfusion heq
        · exact hlift hmem
      · rcases List.mem_append.1 hmem with hmem | hmem
        · split at hmem
          · exact absurd rfl (hnotproc _ hmem)
          · rcases List.mem_append.1 hmem with hmem | hmem
            · exact absurd rfl (hnotproc _ hmem)
            · rcases List.mem_singleton.1 hmem with heq
              rcases Event.errorLog.inj heq with ⟨rfl, rfl⟩
              exact ⟨w, List.mem_cons_self w rest, rfl, rfl⟩
        · exact hlift hmem

theorem run_loop_failure_logged (uploadOk : String → Bool)
    (pieces : String → Nat) (P csv : List LedgerEntry) (dir : List String)
    (v : Vod) (rest : List Vod) (now : String)
    (hnotproc : P.any (fun row => decide (v.id = row.vodId)) = false)
    (hfail : (process_vod uploadOk pieces P csv dir v now).2.2.2 = false) :
    Event.errorLog v.id v.title ∈
      (run_loop uploadOk pieces P now false (v :: rest) csv dir).1 := by
  simp only [run_loop]
  rw [if_neg (by simp : ¬ false = true), if_neg (by simp [hnotproc]), if_neg (by simp [hfail])]
  exact List.mem_append_left _
    (List.mem_append_right _ (List.mem_singleton.2 rfl))

/-! ### Claim theorems -/

/-- C1: for every positive total duration, the planning step of `split_vod`
computes an effective segment count of `max(1, round(total/1800))` and a
segment duration of `total / segmentCount`; in particular the count is at
least 1 even for durations shorter than half the 1800-second target. -/
theorem C1_segmentation_plan (d : ℚ) (_hd : 0 < d) :
    (split_vod_plan d).segmentCount = max 1 (pythonRound (d / 1800)) ∧
      (split_vod_plan d).segmentDurationSeconds =
        d / (((split_vod_plan d).segmentCount : Int) : ℚ) ∧
      1 ≤ (split_vod_plan d).segmentCount :=
  ⟨rfl, rfl, le_max_left 1 _⟩

/-- Witness for C1 at the spec's 90-minute scenario duration 5400 s. -/
theorem C1_segmentation_plan_witness :
    (0 : ℚ) < 5400 ∧
      ((split_vod_plan 5400).segmentCount =
          max 1 (pythonRound ((5400 : ℚ) / 1800)) ∧
        (split_vod_plan 5400).segmentDurationSeconds =
          5400 / (((split_vod_plan 5400).segmentCount : Int) : ℚ) ∧
        1 ≤ (split_vod_plan 5400).segmentCount) :=
  ⟨by decide, C1_segmentation_plan 5400 (by decide)⟩

/-- C2: `get_last_part_number_for_game` always returns a value ≥ 0, and —
on ledgers whose part numbers are positive integers, as the data model
prescribes — it returns the maximum `partNumber` among the entries whose
`categoryName` matches the queried name case-insensitively, or 0 when no
entry matches. -/
theorem C2_last_part_number (c : String) (E : List LedgerEntry) :
    0 ≤ get_last_part_number_for_game c E ∧
      ((∀ e ∈ E, 1 ≤ e.partNumber) →
        get_last_part_number_for_game c E = lastPartNumberSpec c E) := by
  constructor
  · rw [get_last_part_number_for_game, get_last_foldl_eq]
    exact foldl_max_le_init _ 0
  · intro hpos
    rw [get_last_part_number_for_game, get_last_foldl_eq, lastPartNumberSpec]
    rcases hml :
        (E.filter fun e =>
            decide (strLower e.categoryName = strLower c)).map
          (fun e => e.partNumber) with _ | ⟨p, ps⟩
    · rw [hml]; rfl
    · rw [hml]
      have hp : 1 ≤ p := by
        have hmem : p ∈
            (E.filter fun e =>
                decide (strLower e.categoryName = strLower c)).map
              (fun e => e.partNumber) := by
          rw [hml]; exact List.mem_cons_self p ps
        rcases List.mem_map.1 hmem with ⟨e, he, rfl⟩
        exact hpos e (List.mem_of_mem_filter he)
      have h0 : (0 : Int) ≤ ps.foldl max p :=
        le_trans (le_trans (by omega) hp) (foldl_max_le_init ps p)
      calc (p :: ps).foldl max 0 = ps.foldl max (max 0 p) := rfl
        _ = max 0 (ps.foldl max p) := foldl_max_max ps 0 p
        _ = ps.foldl max p := max_eq_right h0

/-- Witness for C2 at the spec's scenario: two "Just Chatting" entries with
part numbers 1 and 2 (one written with different capitalisation). -/
theorem C2_last_part_number_witness :
    0 ≤ get_last_part_number_for_game "Just Chatting"
        [⟨"a", "Just Chatting", 1, "t1"⟩, ⟨"b", "just chatting", 2, "t2"⟩] ∧
      get_last_part_number_for_game "Just Chatting"
          [⟨"a", "Just Chatting", 1, "t1"⟩, ⟨"b", "just chatting", 2, "t2"⟩] =
        lastPartNumberSpec "Just Chatting"
          [⟨"a", "Just Chatting", 1, "t1"⟩, ⟨"b", "just chatting", 2, "t2"⟩] :=
  ⟨(C2_last_part_number "Just Chatting"
      [⟨"a", "Just Chatting", 1, "t1"⟩, ⟨"b", "just chatting", 2, "t2"⟩]).1,
    (C2_last_part_number "Just Chatting"
      [⟨"a", "Just Chatting", 1, "t1"⟩, ⟨"b", "just chatting", 2, "t2"⟩]).2
      (by decide)⟩

/-- C3: counterexample run showing the part-number lookup is NOT recomputed
from a fresh ledger snapshot per recording.  Two "Just Chatting" recordings in
one run (empty ledger at start, all uploads succeeding) both receive part
number 1, because `main` reads `processed_vods` loaded once at run start and
never reloads it; the second entry is written with a part number equal to
(hence not greater than) the category's maximum after the first entry. -/
theorem C3_stale_snapshot :
    (mainRun (fun _ => true) (fun _ => 0) false
          [⟨"v1", "u1", "Just Chatting | ep1"⟩,
           ⟨"v2", "u2", "Just Chatting | ep2"⟩]
          [] [] "t").2.1 =
        [⟨"v1", "Just Chatting", 1, "t"⟩, ⟨"v2", "Just Chatting", 1, "t"⟩] ∧
      ¬ get_last_part_number_for_game "Just Chatting"
          [⟨"v1", "Just Chatting", 1, "t"⟩] < (1 : Int) :=
  ⟨by decide, by decide⟩

/-- C5: with `lastPartNumber = k`, the `N` outputs of a segmented-class
recording are numbered `k+i+1` in emitted order (so the batch consumes
exactly `k+1 … k+N`, segment 1 lowest), and a continuous-class recording
gets the single part number `k+1`. -/
theorem C5_allocation_order (uploadOk : String → Bool) (pieces : String → Nat)
    (P csv : List LedgerEntry) (dir : List String) (v : Vod)
    (now tail1 : String)
    (hdelim : (pySplitOnce v.title " |").2 = some tail1)
    (hok : ∀ s, uploadOk s = true) :
    (¬ (strLower (extract_game_name v.title) = "just chatting" ∨
          strLower (extract_game_name v.title) = "cooking") →
        uploadPartNumbers (process_vod uploadOk pieces P csv dir v now).1 =
          (List.range
              (split_vod dir
                (pieces (DOWNLOAD_DIR ++ "/" ++ v.id ++ ".mp4"))).1.length).map
            (fun i : Nat =>
              get_last_part_number_for_game (extract_game_name v.title) P +
                (i : Int) + 1)) ∧
      ((strLower (extract_game_name v.title) = "just chatting" ∨
          strLower (extract_game_name v.title) = "cooking") →
        uploadPartNumbers (process_vod uploadOk pieces P csv dir v now).1 =
          [get_last_part_number_for_game (extract_game_name v.title) P + 1]) := by
  constructor
  · intro hseg
    have hloop := upload_segments_loop_all_ok uploadOk v.id v.title
      (extract_game_name v.title)
      (get_last_part_number_for_game (extract_game_name v.title) P) tail1
      hdelim
      (split_vod dir (pieces (DOWNLOAD_DIR ++ "/" ++ v.id ++ ".mp4"))).1 0
      (fun s _ => hok s)
    simp only [process_vod, if_neg hseg, List.enum_eq_enumFrom, hloop,
      eq_self_iff_true, if_true]
    rw [uploadPartNumbers_append, uploadPartNumbers_download_cons,
      uploadPartNumbers_upload_map, uploadPartNumbers_ledger_singleton,
      List.append_nil]
    exact map_fst_enumFrom_zero _
      (fun i : Nat =>
        get_last_part_number_for_game (extract_game_name v.title) P +
          (i : Int) + 1)
  · intro hcont
    have hmt : continuous_modified_title (extract_game_name v.title)
        (get_last_part_number_for_game (extract_game_name v.title) P + 1)
        v.title =
      some (extract_game_name v.title ++ " | Part " ++
        toString
          (get_last_part_number_for_game (extract_game_name v.title) P + 1) ++
        " | " ++ tail1) := by
      simp [continuous_modified_title, hdelim]
    simp only [process_vod, if_pos hcont, hmt,
      hok (DOWNLOAD_DIR ++ "/" ++ v.id ++ ".mp4"), if_true]
    rfl

/-- Witness for C5: a segmented recording with two ffmpeg output files gets
part numbers 1 and 2 in order, and a continuous ("Just Chatting") recording
gets the single part number 1. -/
theorem C5_allocation_order_witness :
    uploadPartNumbers (process_vod (fun _ => true) (fun _ => 2) [] [] []
        ⟨"s", "u", "Game | x"⟩ "t").1 =
      (List.range (split_vod []
          ((fun _ : String => 2)
            (DOWNLOAD_DIR ++ "/" ++ (Vod.mk "s" "u" "Game | x").id ++
              ".mp4"))).1.length).map
        (fun i : Nat =>
          get_last_part_number_for_game
              (extract_game_name (Vod.mk "s" "u" "Game | x").title) [] +
            (i : Int) + 1) ∧
      uploadPartNumbers (process_vod (fun _ => true) (fun _ => 0) [] [] []
          ⟨"c", "u", "Just Chatting | x"⟩ "t").1 =
        [get_last_part_number_for_game
            (extract_game_name (Vod.mk "c" "u" "Just Chatting | x").title) [] +
          1] :=
  ⟨(C5_allocation_order (fun _ => true) (fun _ => 2) [] [] []
      ⟨"s", "u", "Game | x"⟩ "t" " x" (by decide) (fun _ => rfl)).1 (by decide),
    (C5_allocation_order (fun _ => true) (fun _ => 0) [] [] []
      ⟨"c", "u", "Just Chatting | x"⟩ "t" " x" (by decide) (fun _ => rfl)).2
      (by decide)⟩

/-- C8: for a segmented-class recording, on success exactly one ledger entry
is appended, recording `lastPartNumber + number of actual output files`, and
it is the last event — after all uploads; if an upload fails mid-batch, the
csv is unchanged, no ledger entry is appended, and exactly the uploads before
the failing segment remain. -/
theorem C8_single_ledger_append (uploadOk : String → Bool)
    (pieces : String → Nat) (P csv : List LedgerEntry) (dir : List String)
    (v : Vod) (now tail1 : String)
    (hdelim : (pySplitOnce v.title " |").2 = some tail1)
    (hseg : ¬ (strLower (extract_game_name v.title) = "just chatting" ∨
        strLower (extract_game_name v.title) = "cooking")) :
    ((∀ s ∈ (split_vod dir
          (pieces (DOWNLOAD_DIR ++ "/" ++ v.id ++ ".mp4"))).1,
        uploadOk s = true) →
      (process_vod uploadOk pieces P csv dir v now).2.1 =
          csv ++ [⟨v.id, extract_game_name v.title,
            get_last_part_number_for_game (extract_game_name v.title) P +
              ((split_vod dir
                  (pieces (DOWNLOAD_DIR ++ "/" ++ v.id ++
                    ".mp4"))).1.length : Int), now⟩] ∧
        ledgerAppends (process_vod uploadOk pieces P csv dir v now).1 =
          [⟨v.id, extract_game_name v.title,
            get_last_part_number_for_game (extract_game_name v.title) P +
              ((split_vod dir
                  (pieces (DOWNLOAD_DIR ++ "/" ++ v.id ++
                    ".mp4"))).1.length : Int), now⟩] ∧
        (process_vod uploadOk pieces P csv dir v now).1.getLast? =
          some (Event.ledgerAppend ⟨v.id, extract_game_name v.title,
            get_last_part_number_for_game (extract_game_name v.title) P +
              ((split_vod dir
                  (pieces (DOWNLOAD_DIR ++ "/" ++ v.id ++
                    ".mp4"))).1.length : Int), now⟩) ∧
        (uploadPartNumbers
            (process_vod uploadOk pieces P csv dir v now).1).length =
          (split_vod dir
            (pieces (DOWNLOAD_DIR ++ "/" ++ v.id ++ ".mp4"))).1.length) ∧
      ∀ good bad rest2,
        (split_vod dir (pieces (DOWNLOAD_DIR ++ "/" ++ v.id ++ ".mp4"))).1 =
          good ++ bad :: rest2 →
        (∀ s ∈ good, uploadOk s = true) → uploadOk bad = false →
        (process_vod uploadOk pieces P csv dir v now).2.1 = csv ∧
          ledgerAppends (process_vod uploadOk pieces P csv dir v now).1 =
            [] ∧
          (uploadPartNumbers
              (process_vod uploadOk pieces P csv dir v now).1).length =
            good.length := by
  constructor
  · intro hok
    have hloop := upload_segments_loop_all_ok uploadOk v.id v.title
      (extract_game_name v.title)
      (get_last_part_number_for_game (extract_game_name v.title) P) tail1
      hdelim
      (split_vod dir (pieces (DOWNLOAD_DIR ++ "/" ++ v.id ++ ".mp4"))).1 0 hok
    simp only [process_vod, if_neg hseg, List.enum_eq_enumFrom, hloop,
      eq_self_iff_true, if_true]
    refine ⟨rfl, ?_, ?_, ?_⟩
    · rw [ledgerAppends_append, ledgerAppends_download_cons,
        ledgerAppends_upload_map, ledgerAppends_ledger_singleton,
        List.nil_append]
    · exact List.getLast?_concat _
    · rw [uploadPartNumbers_append, uploadPartNumbers_download_cons,
        uploadPartNumbers_upload_map, uploadPartNumbers_ledger_singleton,
        List.append_nil, List.length_map, List.enumFrom_length]
  · intro good bad rest2 hsegs hg hb
    have hloop := upload_segments_loop_first_fail uploadOk v.id v.title
      (extract_game_name v.title)
      (get_last_part_number_for_game (extract_game_name v.title) P) tail1
      hdelim good bad rest2 0 hg hb
    simp only [process_vod, if_neg hseg, List.enum_eq_enumFrom, hsegs, hloop,
      Bool.false_eq_true, if_false]
    refine ⟨trivial, ?_, ?_⟩
    · rw [ledgerAppends_download_cons, ledgerAppends_upload_map]
    · rw [uploadPartNumbers_download_cons, uploadPartNumbers_upload_map,
        List.length_map, List.enumFrom_length]

/-- Witness for C8: a two-segment recording where both uploads succeed (one
trailing ledger append recording part 2), and the same recording where the
second upload fails (no ledger append, one upload left). -/
theorem C8_single_ledger_append_witness :
    ((process_vod (fun _ => true) (fun _ => 2) [] [] []
          ⟨"s", "u", "Game | x"⟩ "t").2.1 =
        [] ++ [⟨"s", extract_game_name "Game | x",
          get_last_part_number_for_game (extract_game_name "Game | x") [] +
            (((split_vod [] 2).1.length : Nat) : Int), "t"⟩] ∧
      ledgerAppends (process_vod (fun _ => true) (fun _ => 2) [] [] []
          ⟨"s", "u", "Game | x"⟩ "t").1 =
        [⟨"s", extract_game_name "Game | x",
          get_last_part_number_for_game (extract_game_name "Game | x") [] +
            (((split_vod [] 2).1.length : Nat) : Int), "t"⟩] ∧
      (process_vod (fun _ => true) (fun _ => 2) [] [] []
          ⟨"s", "u", "Game | x"⟩ "t").1.getLast? =
        some (Event.ledgerAppend ⟨"s", extract_game_name "Game | x",
          get_last_part_number_for_game (extract_game_name "Game | x") [] +
            (((split_vod [] 2).1.length : Nat) : Int), "t"⟩) ∧
      (uploadPartNumbers (process_vod (fun _ => true) (fun _ => 2) [] [] []
          ⟨"s", "u", "Game | x"⟩ "t").1).length =
        (split_vod [] 2).1.length) ∧
      ((process_vod (fun s => decide (s = "./segments/segment_000.mp4"))
            (fun _ => 2) [] [] [] ⟨"s", "u", "Game | x"⟩ "t").2.1 = [] ∧
        ledgerAppends
            (process_vod (fun s => decide (s = "./segments/segment_000.mp4"))
              (fun _ => 2) [] [] [] ⟨"s", "u", "Game | x"⟩ "t").1 = [] ∧
        (uploadPartNumbers
            (process_vod (fun s => decide (s = "./segments/segment_000.mp4"))
              (fun _ => 2) [] [] [] ⟨"s", "u", "Game | x"⟩ "t").1).length =
          ["./segments/segment_000.mp4"].length) :=
  ⟨(C8_single_ledger_append (fun _ => true) (fun _ => 2) [] [] []
      ⟨"s", "u", "Game | x"⟩ "t" " x" (by decide) (by decide)).1 (by decide),
    (C8_single_ledger_append
      (fun s => decide (s = "./segments/segment_000.mp4")) (fun _ => 2)
      [] [] [] ⟨"s", "u", "Game | x"⟩ "t" " x" (by decide) (by decide)).2
      ["./segments/segment_000.mp4"] "./segments/segment_001.mp4" []
      (by decide) (by decide) (by decide)⟩

/-- C6: the code crashes on a title without the delimiter.  For the spec's
example title "StreamHighlights" (segmented class, one ffmpeg output file),
the derived category does fall back to the whole title, but the title
splicing `vod_title.split(' |', 1)[1]` raises IndexError, so the recording
fails with an error log and no upload — against the spec's requirement that
formatting must not raise and delimiter-splicing be omitted. -/
theorem C6_no_delimiter_crash :
    mainRun (fun _ => true) (fun _ => 1) false
        [⟨"s1", "u1", "StreamHighlights"⟩] [] [] "t" =
      ([Event.download "s1", Event.errorLog "s1" "StreamHighlights",
        Event.clearFolders], [], []) ∧
      extract_game_name "StreamHighlights" = "StreamHighlights" :=
  ⟨by decide, by decide⟩

/-- C4: with the ledger persisted, a second run uploads nothing twice: for
every id that equals (case-sensitively) the `vodId` of some ledger entry, the
run emits no download and no upload event for that id, and every recording in
the list carrying that id is skipped. -/
theorem C4_idempotent_skip (uploadOk : String → Bool) (pieces : String → Nat)
    (vods : List Vod) (csv0 : List LedgerEntry) (dir0 : List String)
    (now id : String) (hid : ∃ e ∈ csv0, id = e.vodId) :
    (∀ ev ∈ (mainRun uploadOk pieces false vods csv0 dir0 now).1,
        Event.isDownloadFor id ev = false ∧ Event.isUploadFor id ev = false) ∧
      ∀ v ∈ vods, v.id = id →
        Event.skip id ∈ (mainRun uploadOk pieces false vods csv0 dir0 now).1 := by
  constructor
  · intro ev hev
    simp only [mainRun] at hev
    rcases List.mem_append.1 hev with hev | hev
    · exact run_loop_no_events_for_ledger_id uploadOk pieces csv0 now id hid
        false vods csv0 dir0 ev hev
    · rcases List.mem_singleton.1 hev with rfl
      exact ⟨rfl, rfl⟩
  · intro v hv hvid
    simp only [mainRun]
    exact List.mem_append.2
      (Or.inl (run_loop_skips_processed uploadOk pieces csv0 now id hid
        vods csv0 dir0 v hv hvid))

/-- Witness for C4 at the spec's scenario: a recording with id "abc" already
present in the ledger is skipped with no download or upload. -/
theorem C4_idempotent_skip_witness :
    (∀ ev ∈ (mainRun (fun _ => true) (fun _ => 0) false
          [⟨"abc", "u", "G | t"⟩] [⟨"abc", "G", 1, "t0"⟩] [] "t2").1,
        Event.isDownloadFor "abc" ev = false ∧
          Event.isUploadFor "abc" ev = false) ∧
      ∀ v ∈ [(⟨"abc", "u", "G | t"⟩ : Vod)], v.id = "abc" →
        Event.skip "abc" ∈ (mainRun (fun _ => true) (fun _ => 0) false
          [⟨"abc", "u", "G | t"⟩] [⟨"abc", "G", 1, "t0"⟩] [] "t2").1 :=
  C4_idempotent_skip (fun _ => true) (fun _ => 0) [⟨"abc", "u", "G | t"⟩]
    [⟨"abc", "G", 1, "t0"⟩] [] "t2" "abc"
    ⟨⟨"abc", "G", 1, "t0"⟩, by decide, rfl⟩

/-- C9: per-recording failure isolation.  Every recording in the list is
handled (downloaded, skipped as processed, or live-skipped) no matter what
happens to the others; every error log carries the id and title of one of the
run's recordings; with distinct ids, no recording is downloaded twice in one
run (no in-run retry); and whenever processing a recording raises, the loop
logs the error with that recording's id and title and continues. -/
theorem C9_failure_isolation (uploadOk : String → Bool)
    (pieces : String → Nat) (is_live : Bool) (vods : List Vod)
    (csv0 : List LedgerEntry) (dir0 : List String) (now : String) :
    (∀ v ∈ vods,
        Event.download v.id ∈
            (mainRun uploadOk pieces is_live vods csv0 dir0 now).1 ∨
          Event.skip v.id ∈
            (mainRun uploadOk pieces is_live vods csv0 dir0 now).1 ∨
          Event.liveSkip ∈
            (mainRun uploadOk pieces is_live vods csv0 dir0 now).1) ∧
      (∀ i t, Event.errorLog i t ∈
            (mainRun uploadOk pieces is_live vods csv0 dir0 now).1 →
          ∃ v ∈ vods, v.id = i ∧ v.title = t) ∧
      ((vods.map Vod.id).Nodup → ∀ id,
        (((mainRun uploadOk pieces is_live vods csv0 dir0 now).1.countP
          (Event.isDownloadFor id))) ≤ 1) ∧
      ∀ (csv : List LedgerEntry) (dir : List String) (v : Vod)
        (rest : List Vod),
        csv0.any (fun row => decide (v.id = row.vodId)) = false →
        (process_vod uploadOk pieces csv0 csv dir v now).2.2.2 = false →
        Event.errorLog v.id v.title ∈
          (run_loop uploadOk pieces csv0 now false (v :: rest) csv dir).1 := by
  refine ⟨?_, ?_, ?_, ?_⟩
  · intro v hv
    simp only [mainRun]
    rcases run_loop_reaches_all uploadOk pieces csv0 now vods is_live csv0
        dir0 v hv with h | h | h
    · exact Or.inl (List.mem_append_left _ h)
    · exact Or.inr (Or.inl (List.mem_append_left _ h))
    · exact Or.inr (Or.inr (List.mem_append_left _ h))
  · intro i t hmem
    simp only [mainRun] at hmem
    rcases List.mem_append.1 hmem with hmem | hmem
    · exact run_loop_errorLog_origin uploadOk pieces csv0 now vods is_live
        csv0 dir0 i t hmem
    · rcases List.mem_singleton.1 hmem with heq
      exact Event.noConfusion heq
  · intro hnd id
    simp only [mainRun, List.countP_append]
    simpa [List.countP_cons, Event.isDownloadFor] using
      run_loop_download_count_le_one uploadOk pieces csv0 now id vods hnd
        is_live csv0 dir0
  · intro csv dir v rest hnp hfail
    exact run_loop_failure_logged uploadOk pieces csv0 csv dir v rest now
      hnp hfail

/-- Witness for C9: a run whose first recording ("StreamHighlights", no
delimiter) fails while the second ("Game | y") still gets downloaded; the
failure is logged with the first recording's id and title, and the first
recording is downloaded only once. -/
theorem C9_failure_isolation_witness :
    (Event.download "g" ∈
          (mainRun (fun _ => true) (fun _ => 1) false
            [⟨"f", "uf", "StreamHighlights"⟩, ⟨"g", "ug", "Game | y"⟩]
            [] [] "t").1 ∨
        Event.skip "g" ∈
          (mainRun (fun _ => true) (fun _ => 1) false
            [⟨"f", "uf", "StreamHighlights"⟩, ⟨"g", "ug", "Game | y"⟩]
            [] [] "t").1 ∨
        Event.liveSkip ∈
          (mainRun (fun _ => true) (fun _ => 1) false
            [⟨"f", "uf", "StreamHighlights"⟩, ⟨"g", "ug", "Game | y"⟩]
            [] [] "t").1) ∧
      (∃ v ∈ [(⟨"f", "uf", "StreamHighlights"⟩ : Vod),
          ⟨"g", "ug", "Game | y"⟩], v.id = "f" ∧
          v.title = "StreamHighlights") ∧
      (((mainRun (fun _ => true) (fun _ => 1) false
          [⟨"f", "uf", "StreamHighlights"⟩, ⟨"g", "ug", "Game | y"⟩]
          [] [] "t").1.countP (Event.isDownloadFor "f")) ≤ 1) ∧
      Event.errorLog "f" "StreamHighlights" ∈
        (run_loop (fun _ => true) (fun _ => 1) [] "t" false
          [⟨"f", "uf", "StreamHighlights"⟩, ⟨"g", "ug", "Game | y"⟩]
          [] []).1 :=
  ⟨(C9_failure_isolation (fun _ => true) (fun _ => 1) false
      [⟨"f", "uf", "StreamHighlights"⟩, ⟨"g", "ug", "Game | y"⟩] [] [] "t").1
      ⟨"g", "ug", "Game | y"⟩ (by decide),
    (C9_failure_isolation (fun _ => true) (fun _ => 1) false
      [⟨"f", "uf", "StreamHighlights"⟩, ⟨"g", "ug", "Game | y"⟩] [] [] "t").2.1
      "f" "StreamHighlights" (by decide),
    (C9_failure_isolation (fun _ => true) (fun _ => 1) false
      [⟨"f", "uf", "StreamHighlights"⟩, ⟨"g", "ug", "Game | y"⟩] [] [] "t").2.2.1
      (by decide) "f",
    (C9_failure_isolation (fun _ => true) (fun _ => 1) false
      [⟨"f", "uf", "StreamHighlights"⟩, ⟨"g", "ug", "Game | y"⟩] [] [] "t").2.2.2
      [] [] ⟨"f", "uf", "StreamHighlights"⟩ [⟨"g", "ug", "Game | y"⟩]
      (by decide) (by decide)⟩

/-- C10: split_vod returns all files of the segments directory listing whose
names start with "segment_" and end with ".mp4" — including files a previous
segmented recording of the same run left behind, since clear_folders runs
only once after the whole loop — and the length of that list (not the planned
count) drives part numbering, uploads and the final ledger entry: in the
concrete run below, recording "b" produces only 2 ffmpeg output files but
inherits a third leftover segment from recording "a", so it gets 3 uploads
and a ledger entry with part number 3. -/
theorem C10_listing_driven (dir : List String) (m : Nat) (f : String)
    (hf : f ∈ dir) (hsg : is_segment_file f = true) :
    (SEGMENTS_DIR ++ "/" ++ f) ∈ (split_vod dir m).1 ∧
      (mainRun (fun _ => true)
          (fun p => if p = "./vods/a.mp4" then 3 else 2) false
          [⟨"a", "ua", "Game A | x"⟩, ⟨"b", "ub", "Game B | y"⟩]
          [] [] "t").2.1 =
        [⟨"a", "Game A", 3, "t"⟩, ⟨"b", "Game B", 3, "t"⟩] ∧
      ((mainRun (fun _ => true)
          (fun p => if p = "./vods/a.mp4" then 3 else 2) false
          [⟨"a", "ua", "Game A | x"⟩, ⟨"b", "ub", "Game B | y"⟩]
          [] [] "t").1.countP (Event.isUploadFor "b")) = 3 := by
  refine ⟨?_, by decide, by decide⟩
  exact List.mem_map.2 ⟨f,
    List.mem_filter.2 ⟨List.mem_append_left _ hf, hsg⟩, rfl⟩

/-- Witness for C10 at a directory already holding one stale segment file
that the ffmpeg call (producing zero files) does not touch. -/
theorem C10_listing_driven_witness :
    (SEGMENTS_DIR ++ "/" ++ "segment_000.mp4") ∈
        (split_vod ["segment_000.mp4"] 0).1 ∧
      (mainRun (fun _ => true)
          (fun p => if p = "./vods/a.mp4" then 3 else 2) false
          [⟨"a", "ua", "Game A | x"⟩, ⟨"b", "ub", "Game B | y"⟩]
          [] [] "t").2.1 =
        [⟨"a", "Game A", 3, "t"⟩, ⟨"b", "Game B", 3, "t"⟩] ∧
      ((mainRun (fun _ => true)
          (fun p => if p = "./vods/a.mp4" then 3 else 2) false
          [⟨"a", "ua", "Game A | x"⟩, ⟨"b", "ub", "Game B | y"⟩]
          [] [] "t").1.countP (Event.isUploadFor "b")) = 3 :=
  C10_listing_driven ["segment_000.mp4"] 0 "segment_000.mp4"
    (by decide) (by decide)

/-- C7: the end-of-run canonicalize step (modelled from the spec, absent from
the revision under src/) is a pure permutation: it preserves the entries with
all their fields — in particular the set of entries — and leaves the store
sorted by `categoryName` descending. -/
theorem C7_canonicalize_permutation (E : List LedgerEntry) :
    List.Perm (canonicalize E) E ∧
      (∀ x, x ∈ canonicalize E ↔ x ∈ E) ∧
      List.Pairwise (fun a b => b.categoryName ≤ a.categoryName)
        (canonicalize E) := by
  refine ⟨canonicalize_perm E, fun x => (canonicalize_perm E).mem_iff, ?_⟩
  induction E with
  | nil => exact List.Pairwise.nil
  | cons x xs ih => exact insertByCategoryDesc_pairwise x (canonicalize xs) ih

end TwitchVOD
